import Mathlib

/-!
# Verification of the mp4frag incremental fMP4 segmenter

A shallow embedding of `index.js` of the mp4frag repository (class `Mp4Frag`,
a stream transform that splits a fragmented-mp4 byte stream into an
initialization segment `ftyp‖moov` and media segments `moof‖mdat`).

Buffers are modelled as `List Nat` (one `Nat` per byte), wall-clock instants
(`Date.now()`) as a pre-supplied list of millisecond values carried in the
state, JS numbers used for durations as `Rat`, and JS exceptions as
`Except String`.  Mutation of `this` becomes explicit state passing; the
dynamic dispatch through `this._parseChunk` becomes a `ParseState` tag.
A JS `throw` aborts the surrounding write, so errors are modelled as
terminal for the session.  Recursion through `this._parseChunk(...)` is
modelled with an explicit fuel parameter.
-/

/-- A byte buffer: JS `Buffer` contents, one `Nat` (0..255) per byte. -/
abbrev Bytes := List Nat

/-- `buffer.readUInt32BE(0)`: big-endian 32-bit read of the first 4 bytes. -/
def readUInt32BE (chunk : Bytes) : Nat :=
  chunk.getD 0 0 * 16777216 + chunk.getD 1 0 * 65536 + chunk.getD 2 0 * 256 + chunk.getD 3 0

/-- Byte-level check that `chunk[4..7]` equals the four given byte values
(the box-type comparisons `chunk[4] !== 0x.. || ...` of the source). -/
def tagAt (chunk : Bytes) (a b c d : Nat) : Bool :=
  chunk.getD 4 0 == a && chunk.getD 5 0 == b && chunk.getD 6 0 == c && chunk.getD 7 0 == d

/-- `Buffer.indexOf(pattern)`: index of the first occurrence of `pat` in `l`,
`none` when absent (the source's `-1`). -/
def bufIndexOf (pat : Bytes) : Bytes → Option Nat
  | [] => if pat.isEmpty then some 0 else none
  | x :: rest =>
    if pat.isPrefixOf (x :: rest) then some 0
    else (bufIndexOf pat rest).map (· + 1)

/-- `Buffer.concat(buffers, totalLength)`: concatenation truncated, or
zero-filled, to exactly `total` bytes. -/
def bufConcat (buffers : List Bytes) (total : Nat) : Bytes :=
  (buffers.flatten ++ List.replicate total 0).take total

/-- The ASCII bytes of `'moof'`, used by `Buffer.indexOf('moof')`. -/
def moofTag : Bytes := [0x6D, 0x6F, 0x6F, 0x66]

/-- The ASCII bytes of `'avcC'`. -/
def avcCTag : Bytes := [0x61, 0x76, 0x63, 0x43]

/-- The ASCII bytes of `'mp4a'`. -/
def mp4aTag : Bytes := [0x6D, 0x70, 0x34, 0x61]

/-- One upper-case hex digit (value 0..15), as in
`buffer.toString('hex').toUpperCase()`. -/
def hexDigit (n : Nat) : String :=
  if n = 0 then "0" else if n = 1 then "1" else if n = 2 then "2"
  else if n = 3 then "3" else if n = 4 then "4" else if n = 5 then "5"
  else if n = 6 then "6" else if n = 7 then "7" else if n = 8 then "8"
  else if n = 9 then "9" else if n = 10 then "A" else if n = 11 then "B"
  else if n = 12 then "C" else if n = 13 then "D" else if n = 14 then "E"
  else "F"

/-- `buffer.toString('hex').toUpperCase()`: two upper-case hex digits per
byte. -/
def hexUpper (l : Bytes) : String :=
  l.foldl (fun acc b => acc ++ hexDigit (b % 256 / 16) ++ hexDigit (b % 16)) ""

/-- JS `Math.round`, i.e. `⌊x + 1/2⌋`.  Written on the numerator and
denominator so that concrete instances evaluate by kernel reduction
(`Rat.add` is irreducible); `jsRound_eq_floor` below proves this equal to
`⌊q + 1/2⌋`. -/
def jsRound (q : Rat) : Int := (2 * q.num + q.den) / (2 * (q.den : Int))

/-- The integer `⌊|q| * 10^6 + 1/2⌋` selected by `toFixed(6)` (nearest,
ties upward on the magnitude), again written on the numerator and
denominator; `fixed6Round_eq_floor` below proves the equivalence. -/
def fixed6Round (q : Rat) : Nat :=
  (2 * 1000000 * q.num.natAbs + q.den) / (2 * q.den)

/-- JS `Number.prototype.toFixed(6)`: decimal string with six fractional
digits, half-up rounding on the magnitude, sign restored afterward. -/
def toFixed6 (q : Rat) : String :=
  let sign := if q.num < 0 then "-" else ""
  let n := fixed6Round q
  let whole := n / 1000000
  let frac := n % 1000000
  let fracStr := toString frac
  let padded := String.mk (List.replicate (6 - fracStr.length) '0') ++ fracStr
  sign ++ toString whole ++ "." ++ padded

/-- One entry of the HLS list: the object
`{sequence: String(...), segment, duration}` pushed by `_setSegment`. -/
structure HlsEntry where
  sequence : String
  segment : Bytes
  duration : Rat
  deriving Repr, DecidableEq

/-- The possible values of `this._parseChunk` (the parser's dispatch slot). -/
inductive ParseState
  | findFtyp
  | findMoov
  | findMoof
  | moofHunt
  | findMdat
  deriving Repr, DecidableEq

/-- Observable effects of a write, in emission order: the `initialized`
event, a `this.push(segment)` to the piped reader, an invocation of the
constructor callback, and the `segment` event.  `segmentEvent` carries the
publication ordinal (how many segments had been published before it) purely
as trace instrumentation; its payload in the source is just the bytes. -/
inductive Ev
  | initialized
  | pushed (bytes : Bytes)
  | callback (bytes : Bytes)
  | segmentEvent (ordinal : Nat) (bytes : Bytes)
  deriving Repr, DecidableEq

/-- The mutable fields of a `Mp4Frag` instance.  `Option` models JS slots
that may be `undefined` (the source deletes them on reset).  The fields from
`hlsEnabled` to `m3u8` exist in the source only when `options.hlsBase` was a
non-empty string; `hlsEnabled` records that.  `clock` is the remaining
stream of `Date.now()` values, and `published` is ghost instrumentation
counting `_setSegment` calls (used only to phrase theorems). -/
structure Mp4State where
  parseChunk : ParseState
  ftyp : Option Bytes
  ftypLength : Option Nat
  initialization : Option Bytes
  mime : Option String
  timestamp : Option Nat
  duration : Option Rat
  segment : Option Bytes
  moof : Option Bytes
  moofLength : Option Nat
  mdatLength : Option Nat
  mdatBuffer : Option (List Bytes)
  mdatBufferSize : Option Nat
  hlsEnabled : Bool
  hlsBase : String
  hlsListSize : Nat
  hlsList : List HlsEntry
  sequence : Nat
  m3u8 : Option String
  bufEnabled : Bool
  bufferListSize : Nat
  bufferList : List Bytes
  hasCallback : Bool
  pipesCount : Nat
  segListeners : Nat
  clock : List Nat
  published : Nat
  deriving Repr, DecidableEq

/-- Constructor options.  `hlsListSize`/`bufferListSize` model
`parseInt(...)` results, with `none` for `NaN`; the outer `Option` of
`bufferListSize` is property absence.  `hasCallback`, `pipesCount` and
`segListeners` describe the subscribers consulted by `_setSegment`;
`clock` pre-supplies the `Date.now()` values of the session. -/
structure Options where
  hlsBase : String := ""
  hlsListSize : Option Int := none
  bufferListSize : Option (Option Int) := none
  hasCallback : Bool := false
  pipesCount : Nat := 0
  segListeners : Nat := 0
  clock : List Nat := []
  deriving Repr, DecidableEq

/-- Clamp of `options.hlsListSize` performed by the constructor:
`NaN → 4`, below 2 → 2, above 10 → 10. -/
def clampHls (v : Option Int) : Nat :=
  match v with
  | none => 4
  | some x => if x < 2 then 2 else if x > 10 then 10 else x.toNat

/-- Clamp of `options.bufferListSize` performed by the constructor:
`NaN` or below 2 → 2, above 10 → 10. -/
def clampBuf (v : Option Int) : Nat :=
  match v with
  | none => 2
  | some x => if x < 2 then 2 else if x > 10 then 10 else x.toNat

/-- The state built by the constructor (`new Mp4Frag(options, callback)`). -/
def initState (o : Options) : Mp4State :=
  { parseChunk := ParseState.findFtyp
    ftyp := none
    ftypLength := none
    initialization := none
    mime := none
    timestamp := none
    duration := none
    segment := none
    moof := none
    moofLength := none
    mdatLength := none
    mdatBuffer := none
    mdatBufferSize := none
    hlsEnabled := o.hlsBase != ""
    hlsBase := if o.hlsBase != "" then o.hlsBase else ""
    hlsListSize := if o.hlsBase != "" then clampHls o.hlsListSize else 0
    hlsList := []
    sequence := 0
    m3u8 := none
    bufEnabled := o.bufferListSize.isSome
    bufferListSize := match o.bufferListSize with
      | none => 0
      | some v => clampBuf v
    bufferList := []
    hasCallback := o.hasCallback
    pipesCount := o.pipesCount
    segListeners := o.segListeners
    clock := o.clock
    published := 0 }

/-- Pop the next `Date.now()` value off the pre-supplied clock. -/
def takeNow (st : Mp4State) : Nat × Mp4State :=
  match st.clock with
  | [] => (0, st)
  | t :: rest => (t, { st with clock := rest })

/-- Accessor `get mime` (`this._mime || null`; the empty string is falsy). -/
def getMime (st : Mp4State) : Option String :=
  match st.mime with
  | some m => if m = "" then none else some m
  | none => none

/-- Accessor `get sequence` (`this._sequence || -1`): `_sequence` exists only
when HLS is enabled and `0` is falsy. -/
def getSequence (st : Mp4State) : Int :=
  if st.hlsEnabled && st.sequence != 0 then (st.sequence : Int) else -1

/-- Accessor `get duration` (`this._duration || -1`): a stored duration of
`0` is falsy and yields `-1`. -/
def getDuration (st : Mp4State) : Rat :=
  match st.duration with
  | some d => if d = 0 then -1 else d
  | none => -1

/-- Accessor `get m3u8` (`this._m3u8 || null`). -/
def getM3u8 (st : Mp4State) : Option String :=
  match st.m3u8 with
  | some s => if s = "" then none else some s
  | none => none

/-- Accessor `get segment` (`this._segment || null`). -/
def getSegment (st : Mp4State) : Option Bytes := st.segment

/-- Accessor `get bufferList` (`null` unless the list exists and is
non-empty). -/
def getBufferList (st : Mp4State) : Option (List Bytes) :=
  if st.bufEnabled && st.bufferList.length > 0 then some st.bufferList else none

/-- Method `getHlsSegment(sequence)`: guarded by the truthiness of the
argument (the empty string is falsy) and by the HLS list existing and being
non-empty, then a first-match linear search. -/
def getHlsSegment (st : Mp4State) (sequence : String) : Option Bytes :=
  if sequence != "" && st.hlsEnabled && st.hlsList.length > 0 then
    (st.hlsList.find? (fun e => e.sequence == sequence)).map (fun e => e.segment)
  else none

/-- One parse result: either the successor state or the thrown error's
message, together with the events emitted before returning/throwing. -/
abbrev PRes := Except String Mp4State × List Ev

deriving instance DecidableEq for Except

/-- Sequence a parse result with a continuation, accumulating events (a JS
throw aborts the write, so errors do not run the continuation). -/
def pseq (r : PRes) (k : Mp4State → PRes) : PRes :=
  match r with
  | (Except.error e, evs) => (Except.error e, evs)
  | (Except.ok st, evs) =>
    let r2 := k st
    (r2.1, evs ++ r2.2)

/-- The playlist text written by `_parseMoov` when HLS is enabled. -/
def initialPlaylist (base : String) : String :=
  "#EXTM3U\n" ++ "#EXT-X-VERSION:7\n" ++ "#EXT-X-ALLOW-CACHE:NO\n" ++
  "#EXT-X-TARGETDURATION:0\n" ++ "#EXT-X-MEDIA-SEQUENCE:0\n" ++
  "#EXT-X-MAP:URI=\"init-" ++ base ++ ".mp4\"\n"

/-- The playlist prelude written by `_setSegment` before its entry loop
(`TARGETDURATION` is the rounded just-computed duration, `MEDIA-SEQUENCE`
is `hlsList[0].sequence` after eviction). -/
def playlistHead (base : String) (dur : Rat) (entries : List HlsEntry) : String :=
  "#EXTM3U\n" ++ "#EXT-X-VERSION:7\n" ++ "#EXT-X-ALLOW-CACHE:NO\n" ++
  "#EXT-X-TARGETDURATION:" ++ toString (jsRound dur) ++ "\n" ++
  "#EXT-X-MEDIA-SEQUENCE:" ++
  (entries.headD { sequence := "", segment := [], duration := 0 }).sequence ++ "\n" ++
  "#EXT-X-MAP:URI=\"init-" ++ base ++ ".mp4\"\n"

/-- The `#EXTINF`/URI pair appended by `_setSegment` for one HLS entry. -/
def entryLines (base : String) (e : HlsEntry) : String :=
  "#EXTINF:" ++ toFixed6 e.duration ++ ",\n" ++ base ++ e.sequence ++ ".m4s\n"

/-- The playlist built by `_setSegment`: prelude, then the `for` loop over
the (already evicted) HLS list. -/
def buildPlaylist (base : String) (dur : Rat) (entries : List HlsEntry) : String :=
  entries.foldl (fun acc e => acc ++ entryLines base e) (playlistHead base dur entries)

/-- `_parseMoov(value)`: store the init blob, derive the MIME string (audio
suffix when `mp4a` occurs anywhere in the blob; `MissingCodec` when `avcC`
does not), stamp the time, write the initial playlist when HLS is enabled,
and emit `initialized`. -/
def parseMoov (st : Mp4State) (value : Bytes) : PRes :=
  let st := { st with initialization := some value }
  let audioString := if (bufIndexOf mp4aTag value).isSome then ", mp4a.40.2" else ""
  match bufIndexOf avcCTag value with
  | none => (Except.error "moov does not contain codec information", [])
  | some index =>
    let index := index + 5
    let mime := "video/mp4; codecs=\"avc1." ++ hexUpper ((value.drop index).take 3) ++
      audioString ++ "\""
    let p := takeNow st
    let st := { p.2 with mime := some mime, timestamp := some p.1 }
    let st := if st.hlsEnabled then { st with m3u8 := some (initialPlaylist st.hlsBase) } else st
    (Except.ok st, [Ev.initialized])

/-- `_setSegment(chunk)`: record the segment, compute the wall-clock
duration, update the HLS ring and playlist (sequence string from the
post-incremented counter; front eviction down to the bound), update the
buffer ring, then push / call back / emit according to the subscribers. -/
def setSegment (st : Mp4State) (chunk : Bytes) : Mp4State × List Ev :=
  let st := { st with segment := some chunk }
  let p := takeNow st
  let currentTime := p.1
  let st := p.2
  let dur : Rat := mkRat ((currentTime : Int) - (st.timestamp.getD 0 : Int)) 1000
  let st := { st with duration := some dur, timestamp := some currentTime }
  let st :=
    if st.hlsEnabled then
      let entry : HlsEntry := { sequence := toString st.sequence, segment := chunk, duration := dur }
      let list0 := st.hlsList ++ [entry]
      let list1 := list0.drop (list0.length - st.hlsListSize)
      let st := { st with hlsList := list1, sequence := st.sequence + 1 }
      { st with m3u8 := some (buildPlaylist st.hlsBase dur list1) }
    else st
  let st :=
    if st.bufEnabled then
      let bl := st.bufferList ++ [chunk]
      { st with bufferList := bl.drop (bl.length - st.bufferListSize) }
    else st
  let evs := (if st.pipesCount > 0 then [Ev.pushed chunk] else []) ++
    (if st.hasCallback then [Ev.callback chunk] else []) ++
    (if st.segListeners > 0 then [Ev.segmentEvent st.published chunk] else [])
  ({ st with published := st.published + 1 }, evs)

/-- Clear the per-segment slots deleted by `_findMdat` after a publication. -/
def clearMdat (st : Mp4State) : Mp4State :=
  { st with
      moof := none, moofLength := none, mdatLength := none
      mdatBuffer := none, mdatBufferSize := none }

/-- One call of `this._parseChunk(chunk)`: the state machine of `_findFtyp`,
`_findMoov`, `_findMoof`, `_moofHunt` and `_findMdat`, with `fuel` bounding
the re-feed recursion depth.  The `_findMoof` miss path reproduces the
source faithfully: after at least one segment it assigns `_moofHunt` and
calls it, and then — there being no `return` — falls through to read a moof
length from the same chunk with whatever state the hunt left behind
(`readUInt32BE` raises a range error on chunks shorter than 4 bytes). -/
def parse : Nat → Mp4State → Bytes → PRes
  | 0, _, _ => (Except.error "out of fuel", [])
  | fuel + 1, st, chunk =>
    match st.parseChunk with
    | ParseState.findFtyp =>
      if chunk.length < 8 || !tagAt chunk 0x66 0x74 0x79 0x70 then
        (Except.error "cannot find ftyp", [])
      else
        let ftypLength := readUInt32BE chunk
        if ftypLength < chunk.length then
          parse fuel
            { st with
                ftyp := some (chunk.take ftypLength), ftypLength := some ftypLength
                parseChunk := ParseState.findMoov }
            (chunk.drop ftypLength)
        else if ftypLength = chunk.length then
          (Except.ok { st with
            ftyp := some chunk, ftypLength := some ftypLength
            parseChunk := ParseState.findMoov }, [])
        else
          (Except.error "ftypLength greater than chunkLength", [])
    | ParseState.findMoov =>
      if chunk.length < 8 || !tagAt chunk 0x6D 0x6F 0x6F 0x76 then
        (Except.error "cannot find moov", [])
      else
        let moovLength := readUInt32BE chunk
        if moovLength < chunk.length then
          pseq (parseMoov st (bufConcat [st.ftyp.getD [], chunk] (st.ftypLength.getD 0 + moovLength)))
            (fun st1 =>
              parse fuel
                { st1 with ftyp := none, ftypLength := none, parseChunk := ParseState.findMoof }
                (chunk.drop moovLength))
        else if moovLength = chunk.length then
          pseq (parseMoov st (bufConcat [st.ftyp.getD [], chunk] (st.ftypLength.getD 0 + moovLength)))
            (fun st1 =>
              (Except.ok { st1 with
                ftyp := none, ftypLength := none
                parseChunk := ParseState.findMoof }, []))
        else
          (Except.error "moovLength greater than chunkLength", [])
    | ParseState.moofHunt =>
      match bufIndexOf moofTag chunk with
      | some index =>
        if index > 3 then
          parse fuel { st with parseChunk := ParseState.findMoof } (chunk.drop (index - 4))
        else (Except.ok st, [])
      | none => (Except.ok st, [])
    | ParseState.findMoof =>
      if chunk.length < 8 || !tagAt chunk 0x6D 0x6F 0x6F 0x66 then
        match st.segment with
        | none => (Except.error "immediately failed to find moof", [])
        | some _ =>
          pseq (parse fuel { st with parseChunk := ParseState.moofHunt } chunk)
            (fun st1 =>
              if chunk.length < 4 then (Except.error "readUInt32BE out of range", [])
              else if readUInt32BE chunk < chunk.length then
                parse fuel
                  { st1 with
                      moofLength := some (readUInt32BE chunk)
                      moof := some (chunk.take (readUInt32BE chunk))
                      parseChunk := ParseState.findMdat }
                  (chunk.drop (readUInt32BE chunk))
              else if readUInt32BE chunk = chunk.length then
                (Except.ok { st1 with
                  moofLength := some (readUInt32BE chunk)
                  moof := some chunk
                  parseChunk := ParseState.findMdat }, [])
              else (Except.error "mooflength greater than chunklength", []))
      else if readUInt32BE chunk < chunk.length then
        parse fuel
          { st with
              moofLength := some (readUInt32BE chunk)
              moof := some (chunk.take (readUInt32BE chunk))
              parseChunk := ParseState.findMdat }
          (chunk.drop (readUInt32BE chunk))
      else if readUInt32BE chunk = chunk.length then
        (Except.ok { st with
          moofLength := some (readUInt32BE chunk)
          moof := some chunk
          parseChunk := ParseState.findMdat }, [])
      else (Except.error "mooflength greater than chunklength", [])
    | ParseState.findMdat =>
      match st.mdatBuffer with
      | some buffer =>
        let buffer := buffer ++ [chunk]
        let size := st.mdatBufferSize.getD 0 + chunk.length
        let st := { st with mdatBuffer := some buffer, mdatBufferSize := some size }
        let mdatLength := st.mdatLength.getD 0
        if mdatLength = size then
          let p := setSegment st
            (bufConcat (st.moof.getD [] :: buffer) (st.moofLength.getD 0 + mdatLength))
          (Except.ok (clearMdat { p.1 with parseChunk := ParseState.findMoof }), p.2)
        else if mdatLength < size then
          let p := setSegment st
            (bufConcat (st.moof.getD [] :: buffer) (st.moofLength.getD 0 + mdatLength))
          let sliceIndex := size - mdatLength
          pseq (Except.ok (clearMdat { p.1 with parseChunk := ParseState.findMoof }), p.2)
            (fun st2 => parse fuel st2 (chunk.drop sliceIndex))
        else (Except.ok st, [])
      | none =>
        if chunk.length < 8 || !tagAt chunk 0x6D 0x64 0x61 0x74 then
          (Except.error "cannot find mdat", [])
        else
          let mdatLength := readUInt32BE chunk
          let st := { st with mdatLength := some mdatLength }
          if mdatLength > chunk.length then
            (Except.ok { st with mdatBuffer := some [chunk], mdatBufferSize := some chunk.length },
              [])
          else if mdatLength = chunk.length then
            let p := setSegment st
              (bufConcat [st.moof.getD [], chunk] (st.moofLength.getD 0 + chunk.length))
            (Except.ok (clearMdat { p.1 with parseChunk := ParseState.findMoof }), p.2)
          else (Except.error "mdatLength less than chunkLength", [])

/-- Feed a list of write chunks through `_transform` in order, accumulating
emitted events and stopping at the first thrown error. -/
def runChunks : Nat → Mp4State → List Bytes → Except String Mp4State × List Ev
  | _, st, [] => (Except.ok st, [])
  | fuel, st, chunk :: rest =>
    match parse fuel st chunk with
    | (Except.error e, evs) => (Except.error e, evs)
    | (Except.ok st1, evs) =>
      let r := runChunks fuel st1 rest
      (r.1, evs ++ r.2)

/-- Events observable as the `initialized` / `segment` events of the claims
(pushes to a piped reader and callback invocations are separate channels). -/
def isObs : Ev → Bool
  | Ev.initialized => true
  | Ev.segmentEvent _ _ => true
  | _ => false

/-- The `initialized`/`segment` subsequence of a trace. -/
def obsEvents (evs : List Ev) : List Ev := evs.filter isObs

/-- `segsFrom p l`: `l` consists only of segment events whose publication
ordinals increase strictly starting at or above `p`. -/
def segsFrom (p : Nat) : List Ev → Bool
  | [] => true
  | Ev.segmentEvent n _ :: rest => Nat.ble p n && segsFrom (n + 1) rest
  | _ => false

/-- `segsIn p q l`: as `segsFrom p l`, with all ordinals below `q`. -/
def segsIn (p q : Nat) : List Ev → Bool
  | [] => true
  | Ev.segmentEvent n _ :: rest => Nat.ble p n && Nat.blt n q && segsIn (n + 1) q rest
  | _ => false

/-- Well-formed observable trace: empty, or exactly one `initialized` first
and then segment events with strictly increasing ordinals. -/
def traceOK (evs : List Ev) : Bool :=
  match obsEvents evs with
  | [] => true
  | Ev.initialized :: rest => segsFrom 0 rest
  | _ => false

/-- The parser phases before the init blob is complete (`initialized` can
only be emitted while leaving these states, and they are never re-entered
within a session). -/
def preInit (st : Mp4State) : Bool :=
  match st.parseChunk with
  | ParseState.findFtyp => true
  | ParseState.findMoov => true
  | _ => false

/-- Shape of the observable events of one `_parseChunk` call entered with
`pre`-init flag `pre` and `p` segments already published, where `q` bounds
the publication ordinals afterwards: before the init blob completes, the
call emits nothing observable, or `initialized` followed by in-range
segment events; afterwards only in-range segment events. -/
def StepEvs (pre : Bool) (p q : Nat) (evs : List Ev) : Prop :=
  if pre then
    obsEvents evs = [] ∨
      ∃ rest, obsEvents evs = Ev.initialized :: rest ∧ segsIn p q rest = true
  else segsIn p q (obsEvents evs) = true

/-- Full characterisation of one `_parseChunk` call entered with `p`
segments published and pre-init flag `pre`: the published count never
decreases, the observable events have the `StepEvs` shape bounded by the
final published count, a pre-init state stays pre-init only silently, and
the `initialized` event is emitted exactly at the pre-to-post transition. -/
def ShapeStep (p : Nat) (pre : Bool) (r : Except String Mp4State) (evs : List Ev) : Prop :=
  match r with
  | Except.ok st' =>
      p ≤ st'.published ∧
      (pre = true →
        (preInit st' = true ∧ obsEvents evs = [] ∧ st'.published = p) ∨
        (preInit st' = false ∧ ∃ rest, obsEvents evs = Ev.initialized :: rest ∧
          segsIn p st'.published rest = true)) ∧
      (pre = false → preInit st' = false ∧
        segsIn p st'.published (obsEvents evs) = true)
  | Except.error _ => ∃ q, p ≤ q ∧ StepEvs pre p q evs

/-- Erase the HLS-only fields of a state to the values they carry when the
parser is constructed without a (non-empty) `hlsBase`. -/
def stripHls (st : Mp4State) : Mp4State :=
  { st with
      hlsEnabled := false
      hlsBase := ""
      hlsListSize := 0
      hlsList := []
      sequence := 0
      m3u8 := none }

/-- Modelled from the spec (§6, §4.3): the MIME string determined by an init
blob whose first `avcC` occurrence is at `idx` — the fixed stem, the
upper-cased hex of the 3 bytes starting 5 bytes after `idx`, the audio
suffix exactly when `mp4a` occurs in the blob. -/
def mimeSpec (value : Bytes) (idx : Nat) : String :=
  "video/mp4; codecs=\"avc1." ++ hexUpper ((value.drop (idx + 5)).take 3) ++
  (if (bufIndexOf mp4aTag value).isSome then ", mp4a.40.2" else "") ++ "\""

/-- Modelled from the spec (§6): the playlist regenerated after a segment —
fixed prelude, `TARGETDURATION` the rounded latest duration,
`MEDIA-SEQUENCE` the sequence of the oldest ring entry, then one
`#EXTINF`/URI pair per ring entry in ring order. -/
def m3u8Spec (base : String) (lastDur : Rat) (entries : List HlsEntry) : String :=
  "#EXTM3U\n" ++ "#EXT-X-VERSION:7\n" ++ "#EXT-X-ALLOW-CACHE:NO\n" ++
  "#EXT-X-TARGETDURATION:" ++ toString (jsRound lastDur) ++ "\n" ++
  "#EXT-X-MEDIA-SEQUENCE:" ++
  (entries.headD { sequence := "", segment := [], duration := 0 }).sequence ++ "\n" ++
  "#EXT-X-MAP:URI=\"init-" ++ base ++ ".mp4\"\n" ++
  String.join (entries.map (entryLines base))

/-- Concrete 8-byte `ftyp` box used by the concrete-input theorems. -/
def ftypBox : Bytes := [0, 0, 0, 8, 0x66, 0x74, 0x79, 0x70]

/-- Concrete 16-byte `moov` box: header, `avcC`, one skipped byte, then the
AVC profile/compatibility/level bytes `4D 40 1F`; contains no `mp4a`. -/
def moovBox : Bytes :=
  [0, 0, 0, 16, 0x6D, 0x6F, 0x6F, 0x76, 0x61, 0x76, 0x63, 0x43, 0x01, 0x4D, 0x40, 0x1F]

/-- Concrete minimal 8-byte `moof` box. -/
def moofBox : Bytes := [0, 0, 0, 8, 0x6D, 0x6F, 0x6F, 0x66]

/-- Concrete 9-byte `mdat` box (one payload byte). -/
def mdatBox9 : Bytes := [0, 0, 0, 9, 0x6D, 0x64, 0x61, 0x74, 0xAA]

/-- Concrete 8-byte `mdat` box (empty payload). -/
def mdatBox8 : Bytes := [0, 0, 0, 8, 0x6D, 0x64, 0x61, 0x74]

/-- A truncated `moov`: valid header declaring 32 bytes, only 12 present. -/
def moovPartial : Bytes := [0, 0, 0, 32, 0x6D, 0x6F, 0x6F, 0x76, 1, 2, 3, 4]

/-- Concrete 12-byte `mdat` box, used split across two chunks. -/
def mdat12 : Bytes := [0, 0, 0, 12, 0x6D, 0x64, 0x61, 0x74, 1, 2, 3, 4]

/-- Options used by the concrete-input theorems: no HLS, one `segment`
listener, three pre-supplied clock instants. -/
def optsPlain : Options := { segListeners := 1, clock := [500, 1500, 1500] }

/-- Options with HLS enabled (base name `live`), otherwise as `optsPlain`. -/
def optsHls : Options :=
  { hlsBase := "live", segListeners := 1, clock := [500, 1500, 1500] }

/-- Options whose two clock instants coincide, so the first segment's
computed duration is exactly 0 seconds. -/
def optsSameClock : Options := { segListeners := 1, clock := [5, 5] }

set_option maxRecDepth 10000

/-- `jsRound` computes JS `Math.round`: `⌊q + 1/2⌋`. -/
theorem jsRound_eq_floor (q : Rat) : jsRound q = ⌊q + 1 / 2⌋ := by
  have h1 : ⌊(q.num : ℚ) / (q.den : ℚ) + 1 / 2⌋ = (2 * q.num + q.den) / (2 * (q.den : Int)) := by
    have hd0 : (q.den : ℚ) ≠ 0 := Nat.cast_ne_zero.2 q.den_nz
    have h2 : (q.num : ℚ) / (q.den : ℚ) + 1 / 2 =
        ((2 * q.num + q.den : Int) : ℚ) / (((2 * q.den : Nat) : ℚ)) := by
      push_cast
      field_simp
      ring
    rw [h2, Rat.floor_intCast_div_natCast]
    push_cast
    ring_nf
  rw [jsRound, ← h1, Rat.num_div_den q]

/-- The absolute value of a rational as the quotient of `natAbs` of the
numerator by the denominator. -/
theorem abs_eq_natAbs_div (q : ℚ) : |q| = ((q.num.natAbs : Int) : ℚ) / (q.den : ℚ) := by
  rcases le_or_lt 0 q.num with h | h
  · rw [abs_of_nonneg (Rat.num_nonneg.1 h), Int.natAbs_of_nonneg h]
    exact (Rat.num_div_den q).symm
  · have hq : q < 0 := Rat.num_neg.1 h
    rw [abs_of_neg hq, Int.ofNat_natAbs_of_nonpos h.le]
    push_cast
    rw [neg_div]
    exact congrArg Neg.neg (Rat.num_div_den q).symm

/-- `fixed6Round` computes the integer of `toFixed(6)`:
`⌊|q| * 10^6 + 1/2⌋` (half-up on the magnitude). -/
theorem fixed6Round_eq_floor (q : Rat) :
    (fixed6Round q : Int) = ⌊|q| * 1000000 + 1 / 2⌋ := by
  have h1 : |q| * 1000000 = (((1000000 * q.num.natAbs : Nat) : Int) : ℚ) / (q.den : ℚ) := by
    rw [abs_eq_natAbs_div]
    push_cast
    ring
  have hd0 : (q.den : ℚ) ≠ 0 := Nat.cast_ne_zero.2 q.den_nz
  have h2 : (((1000000 * q.num.natAbs : Nat) : Int) : ℚ) / (q.den : ℚ) + 1 / 2 =
      ((2 * (1000000 * q.num.natAbs : Nat) + q.den : Int) : ℚ) / (((2 * q.den : Nat) : ℚ)) := by
    push_cast
    field_simp
    ring
  rw [h1, h2, Rat.floor_intCast_div_natCast, fixed6Round]
  push_cast
  congr 1
  ring

/-- The duration stored by `_setSegment` is `(currentTime − timestamp)/1000`
seconds. -/
theorem duration_eq_div (d : Int) : mkRat d 1000 = (d : ℚ) / 1000 := by
  rw [Rat.mkRat_eq_div]
  norm_num

/-- Claim C1: an `mdat` whose end lies strictly inside the current chunk is
mishandled on both paths.  (a) With no accumulated fragment buffer,
`_findMdat` throws `mdatLength less than chunkLength` instead of publishing
and re-feeding.  (b) With an accumulated buffer the segment is published
with the right bytes, but the re-feed slices the chunk at
`mdatBufferSize − mdatLength` — not at the mdat's end inside the chunk — so
the wrong bytes are re-fed and a valid straddling stream dies (here with
the fall-through range error) instead of continuing with the next `moof`. -/
theorem c1_mdat_overshoot_mishandled :
    (runChunks 32 (initState optsPlain) [ftypBox ++ moovBox, moofBox, mdatBox9 ++ moofBox] =
      (Except.error "mdatLength less than chunkLength", [Ev.initialized])) ∧
    (runChunks 64 (initState optsPlain)
        [ftypBox ++ moovBox, moofBox, mdat12.take 9, mdat12.drop 9 ++ moofBox ++ mdatBox8] =
      (Except.error "readUInt32BE out of range",
        [Ev.initialized, Ev.segmentEvent 0 (moofBox ++ mdat12)])) := by
  refine ⟨by decide, by decide⟩

/-- Claim C2: re-chunking invariance fails on the code.  The same valid
two-segment stream is fed (a) split at box boundaries — two segments are
published — and (b) as one single chunk — the write throws
`mdatLength less than chunkLength` right after `initialized` and no segment
is ever published. -/
theorem c2_rechunking_not_invariant :
    (runChunks 32 (initState optsPlain)
        [ftypBox ++ moovBox, moofBox, mdatBox9, moofBox, mdatBox8]).1.toOption.isSome = true ∧
    (runChunks 32 (initState optsPlain)
        [ftypBox ++ moovBox, moofBox, mdatBox9, moofBox, mdatBox8]).2 =
      [Ev.initialized, Ev.segmentEvent 0 (moofBox ++ mdatBox9),
        Ev.segmentEvent 1 (moofBox ++ mdatBox8)] ∧
    runChunks 32 (initState optsPlain)
        [ftypBox ++ moovBox ++ moofBox ++ mdatBox9 ++ moofBox ++ mdatBox8] =
      (Except.error "mdatLength less than chunkLength", [Ev.initialized]) := by
  refine ⟨by decide, by decide, by decide⟩

/-- Claim C3: after one published segment, a 16-byte all-zero chunk in
`S_MOOF` does *not* leave the parser hunting without error: `_findMoof`
assigns `_moofHunt` and calls it (which finds no `moof` substring), but then
falls through (missing `return`), reads a zero moof length from the garbage,
switches to `_findMdat` and throws `cannot find mdat` from the same write. -/
theorem c3_hunt_falls_through_and_throws :
    runChunks 32 (initState optsPlain)
        [ftypBox ++ moovBox, moofBox, mdatBox9, List.replicate 16 0] =
      (Except.error "cannot find mdat",
        [Ev.initialized, Ev.segmentEvent 0 (moofBox ++ mdatBox9)]) := by decide

/-- Claim C4 (counterexample): a `moov` whose declared length (32) exceeds
the bytes available in its chunk (12) makes the write throw
`moovLength greater than chunkLength`; no accumulation happens and no init
blob is ever produced, contrary to the claim. -/
theorem c4_moov_straddle_counterexample :
    runChunks 8 (initState optsPlain) [ftypBox ++ moovPartial, moovPartial] =
      (Except.error "moovLength greater than chunkLength", []) := by decide

/-- Claim C4 (amended): whenever `S_MOOV` sees a chunk with a valid `moov`
header whose declared length exceeds the chunk length, the parser fails
with `moovLength greater than chunkLength` instead of accumulating
fragments (only the `mdat` path accumulates across chunks). -/
theorem c4_moov_straddle_fatal (st : Mp4State) (chunk : Bytes) (fuel : Nat)
    (hst : st.parseChunk = ParseState.findMoov)
    (hlen : 8 ≤ chunk.length)
    (htag : tagAt chunk 0x6D 0x6F 0x6F 0x76 = true)
    (hbig : chunk.length < readUInt32BE chunk) :
    parse (fuel + 1) st chunk = (Except.error "moovLength greater than chunkLength", []) := by
  have h8 : ¬ (chunk.length < 8) := by omega
  have h1 : ¬ (readUInt32BE chunk < chunk.length) := by omega
  have h2 : ¬ (readUInt32BE chunk = chunk.length) := by omega
  simp [parse, hst, htag, h8, h1, h2]

/-- Witness for `c4_moov_straddle_fatal` at the concrete truncated moov. -/
theorem c4_moov_straddle_fatal_witness :
    parse 1 { initState optsPlain with parseChunk := ParseState.findMoov } moovPartial =
      (Except.error "moovLength greater than chunkLength", []) :=
  c4_moov_straddle_fatal { initState optsPlain with parseChunk := ParseState.findMoov }
    moovPartial 0 (by decide) (by decide) (by decide) (by decide)

theorem setSegment_hls_seq (st : Mp4State) (c : Bytes)
    (h : st.hlsEnabled = true) (hs : st.sequence = st.published) :
    (setSegment st c).1.hlsEnabled = true ∧
      (setSegment st c).1.sequence = (setSegment st c).1.published := by
  by_cases hb : st.bufEnabled = true <;> cases hc : st.clock <;>
    simp [setSegment, takeNow, h, hc, hs, hb]

theorem parseMoov_fields (st : Mp4State) (value : Bytes) (st' : Mp4State) (evs : List Ev)
    (h : parseMoov st value = (Except.ok st', evs)) :
    st'.hlsEnabled = st.hlsEnabled ∧ st'.sequence = st.sequence ∧
      st'.published = st.published ∧ st'.parseChunk = st.parseChunk ∧
      st'.segment = st.segment ∧ evs = [Ev.initialized] := by
  simp only [parseMoov, takeNow] at h
  split at h
  · simp at h
  · split at h <;> split at h <;>
      · simp only [Prod.mk.injEq, Except.ok.injEq] at h
        obtain ⟨hst, hevs⟩ := h
        subst hst
        simp [hevs.symm]

theorem parse_hls_seq : ∀ fuel st chunk st' evs,
    parse fuel st chunk = (Except.ok st', evs) →
    st.hlsEnabled = true → st.sequence = st.published →
    st'.hlsEnabled = true ∧ st'.sequence = st'.published := by
  intro fuel
  induction fuel with
  | zero =>
    intro st chunk st' evs h _ _
    simp [parse] at h
  | succ n ih =>
    intro st chunk st' evs h h1 h2
    rw [parse] at h
    split at h
    · -- findFtyp
      split at h
      · simp at h
      · simp only [] at h
        split at h
        · exact ih _ _ _ _ h (by simp [h1]) (by simp [h2])
        · split at h
          · simp at h
            obtain ⟨hst, -⟩ := h
            subst hst
            simp [h1, h2]
          · simp at h
    · -- findMoov
      split at h
      · simp at h
      · simp only [] at h
        split at h
        · simp only [pseq] at h
          split at h
          · simp at h
          · next stM evs1 hM =>
            rcases hr : parse n { stM with
                ftyp := none, ftypLength := none, parseChunk := ParseState.findMoof }
              (chunk.drop (readUInt32BE chunk)) with ⟨r1, evs2⟩
            rw [hr] at h
            simp only [Prod.mk.injEq] at h
            obtain ⟨hok, -⟩ := h
            subst hok
            obtain ⟨e1, e2, e3, -, -, -⟩ := parseMoov_fields _ _ _ _ hM
            exact ih _ _ _ _ hr (by simp [e1, h1]) (by simp [e2, e3, h2])
        · split at h
          · simp only [pseq] at h
            split at h
            · simp at h
            · next stM evs1 hM =>
              simp only [Prod.mk.injEq, Except.ok.injEq] at h
              obtain ⟨hst, -⟩ := h
              subst hst
              obtain ⟨e1, e2, e3, -, -, -⟩ := parseMoov_fields _ _ _ _ hM
              simp [e1, e2, e3, h1, h2]
          · simp at h
    · -- moofHunt
      split at h
      · split at h
        · exact ih _ _ _ _ h (by simp [h1]) (by simp [h2])
        · simp only [Prod.mk.injEq, Except.ok.injEq] at h
          obtain ⟨hst, -⟩ := h
          subst hst
          exact ⟨h1, h2⟩
      · simp only [Prod.mk.injEq, Except.ok.injEq] at h
        obtain ⟨hst, -⟩ := h
        subst hst
        exact ⟨h1, h2⟩
    · -- findMoof
      split at h
      · -- header miss: hunt then fall-through
        split at h
        · simp at h
        · simp only [pseq] at h
          split at h
          · simp at h
          · next stM evs1 hM =>
            have pM := ih _ _ _ _ hM (by simp [h1]) (by simp [h2])
            split at h
            · simp at h
            · split at h
              · rcases hr : parse n { stM with
                    moofLength := some (readUInt32BE chunk)
                    moof := some (chunk.take (readUInt32BE chunk))
                    parseChunk := ParseState.findMdat }
                  (chunk.drop (readUInt32BE chunk)) with ⟨r1, evs2⟩
                rw [hr] at h
                simp only [Prod.mk.injEq] at h
                obtain ⟨hok, -⟩ := h
                subst hok
                exact ih _ _ _ _ hr (by simp [pM.1]) (by simp [pM.2])
              · split at h
                · simp only [Prod.mk.injEq, Except.ok.injEq] at h
                  obtain ⟨hst, -⟩ := h
                  subst hst
                  simp [pM.1, pM.2]
                · simp at h
      · -- header hit
        split at h
        · exact ih _ _ _ _ h (by simp [h1]) (by simp [h2])
        · split at h
          · simp only [Prod.mk.injEq, Except.ok.injEq] at h
            obtain ⟨hst, -⟩ := h
            subst hst
            simp [h1, h2]
          · simp at h
    · -- findMdat
      split at h
      · -- buffered
        next buffer hbuf =>
        simp only [] at h
        split at h
        · -- exact fill
          simp only [Prod.mk.injEq, Except.ok.injEq] at h
          obtain ⟨hst, -⟩ := h
          subst hst
          have hp := setSegment_hls_seq { st with
              mdatBuffer := some (buffer ++ [chunk])
              mdatBufferSize := some (st.mdatBufferSize.getD 0 + chunk.length) }
            (bufConcat (st.moof.getD [] :: (buffer ++ [chunk]))
              (st.moofLength.getD 0 + st.mdatLength.getD 0))
            (by simp [h1]) (by simp [h2])
          simp [clearMdat, hp.1, hp.2]
        · split at h
          · -- overshoot: publish then re-feed
            simp only [pseq] at h
            have hp := setSegment_hls_seq { st with
                mdatBuffer := some (buffer ++ [chunk])
                mdatBufferSize := some (st.mdatBufferSize.getD 0 + chunk.length) }
              (bufConcat (st.moof.getD [] :: (buffer ++ [chunk]))
                (st.moofLength.getD 0 + st.mdatLength.getD 0))
              (by simp [h1]) (by simp [h2])
            rcases hr : parse n (clearMdat { (setSegment { st with
                mdatBuffer := some (buffer ++ [chunk])
                mdatBufferSize := some (st.mdatBufferSize.getD 0 + chunk.length) }
              (bufConcat (st.moof.getD [] :: (buffer ++ [chunk]))
                (st.moofLength.getD 0 + st.mdatLength.getD 0))).1 with
                parseChunk := ParseState.findMoof })
              (chunk.drop
                (st.mdatBufferSize.getD 0 + chunk.length - st.mdatLength.getD 0)) with ⟨r1, evs2⟩
            rw [hr] at h
            simp only [Prod.mk.injEq] at h
            obtain ⟨hok, -⟩ := h
            subst hok
            exact ih _ _ _ _ hr (by simp [clearMdat, hp.1]) (by simp [clearMdat, hp.2])
          · -- still accumulating
            simp only [Prod.mk.injEq, Except.ok.injEq] at h
            obtain ⟨hst, -⟩ := h
            subst hst
            simp [h1, h2]
      · -- fresh chunk
        split at h
        · simp at h
        · simp only [] at h
          split at h
          · -- body longer than chunk: start buffering
            simp only [Prod.mk.injEq, Except.ok.injEq] at h
            obtain ⟨hst, -⟩ := h
            subst hst
            simp [h1, h2]
          · split at h
            · -- exact fit: publish
              simp only [Prod.mk.injEq, Except.ok.injEq] at h
              obtain ⟨hst, -⟩ := h
              subst hst
              have hp := setSegment_hls_seq { st with mdatLength := some (readUInt32BE chunk) }
                (bufConcat [st.moof.getD [], chunk] (st.moofLength.getD 0 + chunk.length))
                (by simp [h1]) (by simp [h2])
              simp [clearMdat, hp.1, hp.2]
            · simp at h

theorem runChunks_hls_seq : ∀ fuel chunks st st' evs,
    runChunks fuel st chunks = (Except.ok st', evs) →
    st.hlsEnabled = true → st.sequence = st.published →
    st'.hlsEnabled = true ∧ st'.sequence = st'.published := by
  intro fuel chunks
  induction chunks with
  | nil =>
    intro st st' evs h h1 h2
    simp only [runChunks, Prod.mk.injEq, Except.ok.injEq] at h
    obtain ⟨hst, -⟩ := h
    subst hst
    exact ⟨h1, h2⟩
  | cons c cs ih =>
    intro st st' evs h h1 h2
    simp only [runChunks] at h
    split at h
    · simp at h
    · next st1 evs1 heq =>
      rcases hr : runChunks fuel st1 cs with ⟨r1, evs2⟩
      rw [hr] at h
      simp only [Prod.mk.injEq] at h
      obtain ⟨hok, -⟩ := h
      subst hok
      obtain ⟨e1, e2⟩ := parse_hls_seq _ _ _ _ _ heq h1 h2
      exact ih _ _ _ hr e1 e2

/-- Claim C5 (counterexample): with HLS enabled, after exactly one published
segment — whose HLS list entry was assigned sequence string `"0"` — the
`sequence` accessor returns `1` (the post-incremented counter), not the
most recently assigned number `0`. -/
theorem c5_sequence_counterexample :
    Except.map getSequence
        (runChunks 32 (initState optsHls) [ftypBox ++ moovBox, moofBox, mdatBox9]).1 =
      Except.ok 1 ∧
    Except.map (fun st => st.hlsList.map (fun e => e.sequence))
        (runChunks 32 (initState optsHls) [ftypBox ++ moovBox, moofBox, mdatBox9]).1 =
      Except.ok ["0"] ∧
    (runChunks 32 (initState optsHls) [ftypBox ++ moovBox, moofBox, mdatBox9]).2 =
      [Ev.initialized, Ev.segmentEvent 0 (moofBox ++ mdatBox9)] := by
  refine ⟨by decide, by decide, by decide⟩

/-- Claim C5 (amended): with HLS enabled, sequence strings are assigned as
`String(next_seq)` with a post-increment starting from 0, so the `sequence`
accessor (`this._sequence || -1`) returns the *count* of published segments
(`n` after the `n`-th segment, not `n − 1`), and `-1` exactly when that
count is 0. -/
theorem c5_sequence_amended (o : Options) (chunks : List Bytes) (fuel : Nat)
    (hb : o.hlsBase ≠ "") :
    Except.map getSequence (runChunks fuel (initState o) chunks).1 =
      Except.map (fun st => if st.published = 0 then (-1 : Int) else (st.published : Int))
        (runChunks fuel (initState o) chunks).1 := by
  rcases hr : runChunks fuel (initState o) chunks with ⟨r1, evs⟩
  cases r1 with
  | error e => simp [Except.map]
  | ok st' =>
    have h1 : (initState o).hlsEnabled = true := by
      simp [initState, bne_iff_ne, hb]
    have h2 : (initState o).sequence = (initState o).published := by
      simp [initState]
    obtain ⟨e1, e2⟩ := runChunks_hls_seq _ _ _ _ _ hr h1 h2
    by_cases hp : st'.published = 0 <;>
      simp [Except.map, getSequence, e1, e2, hp]

/-- Witness for `c5_sequence_amended` at a concrete one-segment session. -/
theorem c5_sequence_amended_witness :
    Except.map getSequence
        (runChunks 32 (initState optsHls) [ftypBox ++ moovBox, moofBox, mdatBox9]).1 =
      Except.map (fun st => if st.published = 0 then (-1 : Int) else (st.published : Int))
        (runChunks 32 (initState optsHls) [ftypBox ++ moovBox, moofBox, mdatBox9]).1 :=
  c5_sequence_amended optsHls [ftypBox ++ moovBox, moofBox, mdatBox9] 32 (by decide)

theorem string_foldl_append (l : List String) :
    ∀ init : String, l.foldl (fun r s => r ++ s) init = init ++ l.foldl (fun r s => r ++ s) "" := by
  induction l with
  | nil => intro init; simp
  | cons a t ih =>
    intro init
    simp only [List.foldl_cons]
    rw [ih (init ++ a), ih ("" ++ a), String.append_assoc]
    simp

theorem string_join_cons (a : String) (l : List String) :
    String.join (a :: l) = a ++ String.join l := by
  simp only [String.join, List.foldl_cons]
  rw [string_foldl_append]
  simp

theorem foldl_entryLines (base : String) (l : List HlsEntry) :
    ∀ init : String, l.foldl (fun acc e => acc ++ entryLines base e) init =
      init ++ String.join (l.map (entryLines base)) := by
  induction l with
  | nil => intro init; simp [String.join]
  | cons e t ih =>
    intro init
    simp only [List.foldl_cons, List.map_cons]
    rw [ih, string_join_cons, ← String.append_assoc]

/-- The playlist built by `_setSegment`'s loop is the prelude followed by
the joined `#EXTINF`/URI pairs of the ring entries, in ring order. -/
theorem buildPlaylist_eq (base : String) (dur : Rat) (entries : List HlsEntry) :
    buildPlaylist base dur entries =
      playlistHead base dur entries ++ String.join (entries.map (entryLines base)) := by
  simp only [buildPlaylist]
  rw [foldl_entryLines]

/-- Claim C6: `_parseMoov` fails with `MissingCodec` exactly when the init
blob has no `avcC`; otherwise the stored MIME string is the stem
`video/mp4; codecs="avc1.`, the upper-cased hex of the 3 bytes starting 5
bytes after the first index of `avcC`, the suffix `, mp4a.40.2` exactly when
the blob contains `mp4a`, and a closing quote (`mimeSpec`). -/
theorem c6_mime_from_avcC (st : Mp4State) (value : Bytes) :
    (bufIndexOf avcCTag value = none →
      (parseMoov st value).1 = Except.error "moov does not contain codec information") ∧
    (∀ idx, bufIndexOf avcCTag value = some idx → idx + 8 ≤ value.length →
      Except.map (fun s => s.mime) (parseMoov st value).1 =
        Except.ok (some (mimeSpec value idx))) := by
  constructor
  · intro hn
    simp [parseMoov, hn]
  · intro idx hidx hlen
    simp only [parseMoov, takeNow, hidx]
    split <;> split <;> simp [mimeSpec, Except.map]

/-- Witness for `c6_mime_from_avcC` at the concrete init blob, whose AVC
configuration bytes are `4D 40 1F` and which holds no `mp4a`. -/
theorem c6_mime_from_avcC_witness :
    Except.map (fun s => s.mime) (parseMoov (initState optsPlain) (ftypBox ++ moovBox)).1 =
        Except.ok (some (mimeSpec (ftypBox ++ moovBox) 16)) ∧
      mimeSpec (ftypBox ++ moovBox) 16 = "video/mp4; codecs=\"avc1.4D401F\"" :=
  ⟨(c6_mime_from_avcC (initState optsPlain) (ftypBox ++ moovBox)).2 16 (by decide) (by decide),
    by decide⟩

/-- Claim C7: with HLS enabled, the playlist regenerated by `_setSegment`
is exactly `m3u8Spec`: the fixed prelude with `TARGETDURATION` the rounded
duration of the segment just published (the state's latest duration) and
`MEDIA-SEQUENCE` the sequence of the oldest (post-eviction) ring entry,
followed by one `#EXTINF`/URI pair per ring entry in ring order. -/
theorem c7_playlist_matches_ring (st : Mp4State) (chunk : Bytes) (h : st.hlsEnabled = true) :
    (setSegment st chunk).1.m3u8 =
      some (m3u8Spec st.hlsBase ((setSegment st chunk).1.duration.getD 0)
        (setSegment st chunk).1.hlsList) := by
  by_cases hb : st.bufEnabled = true <;> cases hc : st.clock <;>
    simp [setSegment, takeNow, h, hb, hc, buildPlaylist_eq, m3u8Spec, playlistHead,
      String.append_assoc]

/-- Witness for `c7_playlist_matches_ring` at a concrete publication. -/
theorem c7_playlist_matches_ring_witness :
    (setSegment { initState optsHls with timestamp := some 500 } [1, 2]).1.m3u8 =
      some (m3u8Spec (initState optsHls).hlsBase
        ((setSegment { initState optsHls with timestamp := some 500 } [1, 2]).1.duration.getD 0)
        (setSegment { initState optsHls with timestamp := some 500 } [1, 2]).1.hlsList) :=
  c7_playlist_matches_ring { initState optsHls with timestamp := some 500 } [1, 2] (by decide)

/-- Claim C9 (counterexample): a session whose two clock instants coincide
publishes a segment with computed duration 0 seconds, and the `duration`
accessor then returns `-1` (0 is falsy in `this._duration || -1`), not 0 as
the claim requires. -/
theorem c9_zero_duration_counterexample :
    Except.map getDuration
        (runChunks 32 (initState optsSameClock) [ftypBox ++ moovBox, moofBox, mdatBox9]).1 =
      Except.ok (-1) ∧
    Except.map (fun st => st.duration)
        (runChunks 32 (initState optsSameClock) [ftypBox ++ moovBox, moofBox, mdatBox9]).1 =
      Except.ok (some 0) ∧
    (runChunks 32 (initState optsSameClock) [ftypBox ++ moovBox, moofBox, mdatBox9]).2 =
      [Ev.initialized, Ev.segmentEvent 0 (moofBox ++ mdatBox9)] := by
  refine ⟨by decide, by decide, by decide⟩

/-- Claim C9 (amended): `_setSegment` stores the latest segment and the
duration `(t_now − t_prev)/1000` seconds; the `duration` accessor
(`this._duration || -1`) returns that value when it is non-zero, and `-1`
both before any segment and when the computed duration is exactly 0. -/
theorem c9_duration_amended (st : Mp4State) (chunk : Bytes) (t c : Nat) (rest : List Nat)
    (ht : st.timestamp = some t) (hc : st.clock = c :: rest) :
    (setSegment st chunk).1.segment = some chunk ∧
    (setSegment st chunk).1.duration = some ((((c : Int) - (t : Int) : Int) : Rat) / 1000) ∧
    getDuration (setSegment st chunk).1 =
      (if (((c : Int) - (t : Int) : Int) : Rat) / 1000 = 0 then -1
       else (((c : Int) - (t : Int) : Int) : Rat) / 1000) := by
  have hd := duration_eq_div ((c : Int) - (t : Int))
  by_cases hh : st.hlsEnabled = true <;> by_cases hb : st.bufEnabled = true <;>
    simp [setSegment, takeNow, getDuration, ht, hc, hh, hb, hd]

/-- Witness for `c9_duration_amended` at concrete instants 5 and 500. -/
theorem c9_duration_amended_witness :
    (setSegment { initState optsPlain with timestamp := some 5 } [1]).1.segment = some [1] ∧
    (setSegment { initState optsPlain with timestamp := some 5 } [1]).1.duration =
      some ((((500 : Int) - (5 : Int) : Int) : Rat) / 1000) ∧
    getDuration (setSegment { initState optsPlain with timestamp := some 5 } [1]).1 =
      (if (((500 : Int) - (5 : Int) : Int) : Rat) / 1000 = 0 then -1
       else (((500 : Int) - (5 : Int) : Int) : Rat) / 1000) :=
  c9_duration_amended { initState optsPlain with timestamp := some 5 } [1] 5 500
    [1500, 1500] (by decide) (by decide)

theorem setSegment_strip (st : Mp4State) (c : Bytes) :
    setSegment (stripHls st) c = (stripHls (setSegment st c).1, (setSegment st c).2) := by
  by_cases hh : st.hlsEnabled = true <;> by_cases hb : st.bufEnabled = true <;>
    cases hc : st.clock <;>
      simp [setSegment, takeNow, stripHls, hh, hb, hc]

theorem parseMoov_strip (st : Mp4State) (value : Bytes) :
    parseMoov (stripHls st) value =
      (Except.map stripHls (parseMoov st value).1, (parseMoov st value).2) := by
  by_cases hh : st.hlsEnabled = true <;> cases hc : st.clock <;>
    cases hx : bufIndexOf avcCTag value <;>
      simp [parseMoov, takeNow, stripHls, Except.map, hh, hc, hx]

theorem parse_strip : ∀ fuel st chunk,
    parse fuel (stripHls st) chunk =
      (Except.map stripHls (parse fuel st chunk).1, (parse fuel st chunk).2) := by
  intro fuel
  induction fuel with
  | zero => intro st chunk; simp [parse, Except.map]
  | succ n ih =>
    intro st chunk
    rw [parse, parse]
    cases hc : st.parseChunk <;>
      simp only [show (stripHls st).parseChunk = st.parseChunk from rfl, hc]
    · -- findFtyp
      split
      · simp [Except.map]
      · split
        · exact ih { st with
              ftyp := some (chunk.take (readUInt32BE chunk))
              ftypLength := some (readUInt32BE chunk)
              parseChunk := ParseState.findMoov } (chunk.drop (readUInt32BE chunk))
        · split
          · simp [Except.map, stripHls]
          · simp [Except.map]
    · -- findMoov
      simp only [stripHls]
      split
      · simp [Except.map]
      · split
        · have hps := parseMoov_strip st
            (bufConcat [st.ftyp.getD [], chunk] (st.ftypLength.getD 0 + readUInt32BE chunk))
          simp only [stripHls] at hps
          rw [hps]
          rcases hM : parseMoov st
              (bufConcat [st.ftyp.getD [], chunk]
                (st.ftypLength.getD 0 + readUInt32BE chunk)) with ⟨m1, mev⟩
          cases m1 with
          | error e => simp [pseq, Except.map]
          | ok stM =>
            simp only [pseq, Except.map]
            exact congrArg (fun r => (r.1, mev ++ r.2))
              (ih { stM with
                ftyp := none
                ftypLength := none
                parseChunk := ParseState.findMoof } (chunk.drop (readUInt32BE chunk)))
        · split
          · have hps := parseMoov_strip st
              (bufConcat [st.ftyp.getD [], chunk] (st.ftypLength.getD 0 + readUInt32BE chunk))
            simp only [stripHls] at hps
            rw [hps]
            rcases hM : parseMoov st
                (bufConcat [st.ftyp.getD [], chunk]
                  (st.ftypLength.getD 0 + readUInt32BE chunk)) with ⟨m1, mev⟩
            cases m1 with
            | error e => simp [pseq, Except.map]
            | ok stM => simp [pseq, Except.map, stripHls]
          · simp [Except.map]
    · -- findMoof
      simp only [stripHls]
      split
      · -- header miss: hunt, then fall through
        cases hs : st.segment with
        | none => simp [Except.map]
        | some seg =>
          simp only []
          have ihh := ih { st with parseChunk := ParseState.moofHunt, segment := some seg } chunk
          simp only [stripHls] at ihh
          rw [ihh]
          rcases hA : parse n { st with parseChunk := ParseState.moofHunt, segment := some seg }
            chunk with ⟨a1, aev⟩
          cases a1 with
          | error e => simp [pseq, Except.map]
          | ok stM =>
            simp only [pseq, Except.map]
            split
            · simp
            · split
              · exact congrArg (fun r => (r.1, aev ++ r.2))
                  (ih { stM with
                    moofLength := some (readUInt32BE chunk)
                    moof := some (chunk.take (readUInt32BE chunk))
                    parseChunk := ParseState.findMdat } (chunk.drop (readUInt32BE chunk)))
              · split
                · simp [Except.map, stripHls]
                · simp
      · -- header hit
        split
        · exact ih { st with
              moofLength := some (readUInt32BE chunk)
              moof := some (chunk.take (readUInt32BE chunk))
              parseChunk := ParseState.findMdat } (chunk.drop (readUInt32BE chunk))
        · split
          · simp [Except.map, stripHls]
          · simp [Except.map]
    · -- moofHunt
      split
      · next index hx =>
        split
        · exact ih { st with parseChunk := ParseState.findMoof } (chunk.drop (index - 4))
        · simp [Except.map]
      · simp [Except.map]
    · -- findMdat
      simp only [stripHls]
      cases hmb : st.mdatBuffer with
      | some buffer =>
        simp only []
        split
        · -- running total reaches the expected length exactly
          have hss := setSegment_strip { st with
              parseChunk := ParseState.findMdat
              mdatBuffer := some (buffer ++ [chunk])
              mdatBufferSize := some (st.mdatBufferSize.getD 0 + chunk.length) }
            (bufConcat (st.moof.getD [] :: (buffer ++ [chunk]))
              (st.moofLength.getD 0 + st.mdatLength.getD 0))
          simp only [stripHls] at hss
          rw [hss]
          simp [clearMdat, stripHls, Except.map]
        · split
          · -- overshoot: publish, then re-feed the slice
            have hss := setSegment_strip { st with
                parseChunk := ParseState.findMdat
                mdatBuffer := some (buffer ++ [chunk])
                mdatBufferSize := some (st.mdatBufferSize.getD 0 + chunk.length) }
              (bufConcat (st.moof.getD [] :: (buffer ++ [chunk]))
                (st.moofLength.getD 0 + st.mdatLength.getD 0))
            simp only [stripHls] at hss
            rw [hss]
            simp only [pseq]
            exact congrArg
              (fun r => (r.1,
                (setSegment { st with
                  parseChunk := ParseState.findMdat
                  mdatBuffer := some (buffer ++ [chunk])
                  mdatBufferSize := some (st.mdatBufferSize.getD 0 + chunk.length) }
                  (bufConcat (st.moof.getD [] :: (buffer ++ [chunk]))
                    (st.moofLength.getD 0 + st.mdatLength.getD 0))).2 ++ r.2))
              (ih (clearMdat { (setSegment { st with
                  parseChunk := ParseState.findMdat
                  mdatBuffer := some (buffer ++ [chunk])
                  mdatBufferSize := some (st.mdatBufferSize.getD 0 + chunk.length) }
                  (bufConcat (st.moof.getD [] :: (buffer ++ [chunk]))
                    (st.moofLength.getD 0 + st.mdatLength.getD 0))).1 with
                  parseChunk := ParseState.findMoof })
                (chunk.drop
                  (st.mdatBufferSize.getD 0 + chunk.length - st.mdatLength.getD 0)))
          · -- still short: keep accumulating
            simp [Except.map, stripHls]
      | none =>
        simp only []
        split
        · simp [Except.map]
        · split
          · -- declared length exceeds the chunk: start the fragment buffer
            simp [Except.map, stripHls]
          · split
            · -- exact fit: publish
              have hss := setSegment_strip { st with
                  parseChunk := ParseState.findMdat
                  mdatBuffer := none
                  mdatLength := some (readUInt32BE chunk) }
                (bufConcat [st.moof.getD [], chunk] (st.moofLength.getD 0 + chunk.length))
              simp only [stripHls] at hss
              rw [hss]
              simp [clearMdat, stripHls, Except.map]
            · simp [Except.map]

theorem runChunks_strip : ∀ fuel chunks st,
    runChunks fuel (stripHls st) chunks =
      (Except.map stripHls (runChunks fuel st chunks).1, (runChunks fuel st chunks).2) := by
  intro fuel chunks
  induction chunks with
  | nil => intro st; simp [runChunks, Except.map]
  | cons c cs ih =>
    intro st
    simp only [runChunks]
    rw [parse_strip]
    rcases hp : parse fuel st c with ⟨p1, pev⟩
    cases p1 with
    | error e => simp [Except.map]
    | ok st1 =>
      simp only [Except.map]
      rw [ih st1]
      simp [Except.map]

theorem initState_strip (o : Options) :
    initState { o with hlsBase := "" } = stripHls (initState o) := by
  simp [initState, stripHls, bne_self_eq_false]

/-- Claim C10: constructing without a non-empty `hlsBase` yields, for every
write sequence, the same events and the same error/success outcome as the
HLS-enabled parser on an HLS-erased state (`stripHls`); the `sequence`
accessor is always `-1`, `m3u8` always `null`, `getHlsSegment` always
`null`, while the `segment` accessor and the buffer ring agree with the
HLS-enabled run. -/
theorem c10_no_hls (o : Options) (chunks : List Bytes) (fuel : Nat) :
    runChunks fuel (initState { o with hlsBase := "" }) chunks =
      (Except.map stripHls (runChunks fuel (initState o) chunks).1,
        (runChunks fuel (initState o) chunks).2) ∧
    Except.map getSequence (runChunks fuel (initState { o with hlsBase := "" }) chunks).1 =
      Except.map (fun _ => (-1 : Int))
        (runChunks fuel (initState { o with hlsBase := "" }) chunks).1 ∧
    Except.map getM3u8 (runChunks fuel (initState { o with hlsBase := "" }) chunks).1 =
      Except.map (fun _ => (none : Option String))
        (runChunks fuel (initState { o with hlsBase := "" }) chunks).1 ∧
    (∀ s : String,
      Except.map (fun st => getHlsSegment st s)
          (runChunks fuel (initState { o with hlsBase := "" }) chunks).1 =
        Except.map (fun _ => (none : Option Bytes))
          (runChunks fuel (initState { o with hlsBase := "" }) chunks).1) ∧
    Except.map getSegment (runChunks fuel (initState { o with hlsBase := "" }) chunks).1 =
      Except.map getSegment (runChunks fuel (initState o) chunks).1 ∧
    Except.map getBufferList (runChunks fuel (initState { o with hlsBase := "" }) chunks).1 =
      Except.map getBufferList (runChunks fuel (initState o) chunks).1 := by
  have h0 : runChunks fuel (initState { o with hlsBase := "" }) chunks =
      (Except.map stripHls (runChunks fuel (initState o) chunks).1,
        (runChunks fuel (initState o) chunks).2) := by
    rw [initState_strip, runChunks_strip]
  rcases hr : runChunks fuel (initState o) chunks with ⟨r1, evs⟩
  rw [hr] at h0
  refine ⟨h0, ?_, ?_, ?_, ?_, ?_⟩ <;> rw [h0] <;> cases r1 with
  | error e => simp [Except.map]
  | ok st' =>
    simp [Except.map, getSequence, getM3u8, getHlsSegment, getSegment, getBufferList, stripHls]

theorem segsIn_mono : ∀ (l : List Ev) (p p' q r : Nat), p' ≤ p → q ≤ r →
    segsIn p q l = true → segsIn p' r l = true := by
  intro l
  induction l with
  | nil => intro p p' q r _ _ _; rfl
  | cons e t ih =>
    intro p p' q r hp hq h
    cases e <;> simp [segsIn] at h ⊢
    case segmentEvent n b =>
      obtain ⟨⟨h1, h2⟩, h3⟩ := h
      exact ⟨⟨le_trans hp h1, lt_of_lt_of_le h2 hq⟩, ih _ _ _ _ le_rfl hq h3⟩

theorem segsIn_append : ∀ (l1 l2 : List Ev) (p q r : Nat), p ≤ q → q ≤ r →
    segsIn p q l1 = true → segsIn q r l2 = true → segsIn p r (l1 ++ l2) = true := by
  intro l1
  induction l1 with
  | nil =>
    intro l2 p q r hpq _ h1 h2
    simpa using segsIn_mono l2 q p r r hpq le_rfl h2
  | cons e t ih =>
    intro l2 p q r hpq hqr h1 h2
    cases e <;> simp [segsIn] at h1 ⊢
    case segmentEvent n b =>
      obtain ⟨⟨ha, hb⟩, hc⟩ := h1
      exact ⟨⟨ha, lt_of_lt_of_le hb hqr⟩, ih l2 _ _ _ hb hqr hc h2⟩

theorem segsIn_to_segsFrom : ∀ (l : List Ev) (p q : Nat),
    segsIn p q l = true → segsFrom p l = true := by
  intro l
  induction l with
  | nil => intro p q _; rfl
  | cons e t ih =>
    intro p q h
    cases e <;> simp [segsIn, segsFrom] at h ⊢
    case segmentEvent n b =>
      obtain ⟨⟨h1, -⟩, h3⟩ := h
      exact ⟨h1, ih _ _ h3⟩

theorem obsEvents_append (a b : List Ev) :
    obsEvents (a ++ b) = obsEvents a ++ obsEvents b := by
  simp [obsEvents]

theorem setSegment_shape (st : Mp4State) (c : Bytes) :
    obsEvents (setSegment st c).2 =
      (if st.segListeners > 0 then [Ev.segmentEvent st.published c] else []) ∧
    (setSegment st c).1.published = st.published + 1 ∧
    (setSegment st c).1.parseChunk = st.parseChunk := by
  by_cases hh : st.hlsEnabled = true <;> by_cases hb : st.bufEnabled = true <;>
    by_cases hp : st.pipesCount > 0 <;> by_cases hcb : st.hasCallback = true <;>
      by_cases hl : st.segListeners > 0 <;> cases hc : st.clock <;>
        simp [setSegment, takeNow, obsEvents, isObs, hh, hb, hp, hcb, hl, hc]

theorem parseMoov_error_evs (st : Mp4State) (value : Bytes) (e : String) (evs : List Ev)
    (h : parseMoov st value = (Except.error e, evs)) : evs = [] := by
  simp only [parseMoov, takeNow] at h
  split at h
  · simp only [Prod.mk.injEq] at h
    exact h.2.symm
  · split at h <;> split at h <;> simp at h

theorem segsIn_single (p : Nat) (c : Bytes) :
    segsIn p (p + 1) [Ev.segmentEvent p c] = true := by
  simp [segsIn, Nat.ble_eq, Nat.blt_eq]

theorem shapeStep_err_nil (p : Nat) (pre : Bool) (e : String) :
    ShapeStep p pre (Except.error e) [] :=
  ⟨p, le_rfl, by cases pre <;> simp [StepEvs, obsEvents, segsIn]⟩

theorem shapeStep_ok_silent (p : Nat) (pre : Bool) (st' : Mp4State) (evs : List Ev)
    (hpub : st'.published = p) (hpre : preInit st' = pre) (hevs : obsEvents evs = []) :
    ShapeStep p pre (Except.ok st') evs := by
  refine ⟨le_of_eq hpub.symm, ?_, ?_⟩ <;> intro hp
  · exact Or.inl ⟨by rw [hpre, hp], hevs, hpub⟩
  · exact ⟨by rw [hpre, hp], by simp [hevs, segsIn]⟩

theorem shapeStep_ok_post (p : Nat) (st' : Mp4State) (evs : List Ev)
    (hpre' : preInit st' = false) (hpub : p ≤ st'.published)
    (hsegs : segsIn p st'.published (obsEvents evs) = true) :
    ShapeStep p false (Except.ok st') evs :=
  ⟨hpub, fun hp => (Bool.false_ne_true hp).elim, fun _ => ⟨hpre', hsegs⟩⟩

theorem shapeStep_ok_init (p : Nat) (st' : Mp4State) (evs rest : List Ev)
    (hpre' : preInit st' = false) (hpub : p ≤ st'.published)
    (hevs : obsEvents evs = Ev.initialized :: rest)
    (hsegs : segsIn p st'.published rest = true) :
    ShapeStep p true (Except.ok st') evs :=
  ⟨hpub, fun _ => Or.inr ⟨hpre', rest, hevs, hsegs⟩,
    fun hp => (by simp at hp : False).elim⟩

theorem shapeStep_err_post (p q : Nat) (e : String) (evs : List Ev)
    (hq : p ≤ q) (hsegs : segsIn p q (obsEvents evs) = true) :
    ShapeStep p false (Except.error e) evs :=
  ⟨q, hq, by simp [StepEvs, hsegs]⟩

theorem shapeStep_err_init (p q : Nat) (e : String) (evs rest : List Ev)
    (hq : p ≤ q) (hevs : obsEvents evs = Ev.initialized :: rest)
    (hsegs : segsIn p q rest = true) :
    ShapeStep p true (Except.error e) evs :=
  ⟨q, hq, by simp only [StepEvs, if_pos rfl]; exact Or.inr ⟨rest, hevs, hsegs⟩⟩

theorem parse_shape : ∀ fuel st chunk r evs,
    parse fuel st chunk = (r, evs) →
    ShapeStep st.published (preInit st) r evs := by
  intro fuel
  induction fuel with
  | zero =>
    intro st chunk r evs h
    simp only [parse, Prod.mk.injEq] at h
    obtain ⟨h1, h2⟩ := h
    subst h1
    subst h2
    exact shapeStep_err_nil _ _ _
  | succ n ih =>
    intro st chunk r evs h
    rw [parse] at h
    split at h
    · -- findFtyp
      have hpre : preInit st = true := by simp [preInit, *]
      rw [hpre]
      split at h
      · simp only [Prod.mk.injEq] at h
        obtain ⟨h1, h2⟩ := h
        subst h1
        subst h2
        exact shapeStep_err_nil _ _ _
      · simp only [] at h
        split at h
        · have IH := ih { st with
              ftyp := some (chunk.take (readUInt32BE chunk))
              ftypLength := some (readUInt32BE chunk)
              parseChunk := ParseState.findMoov } (chunk.drop (readUInt32BE chunk)) r evs h
          simpa [preInit] using IH
        · split at h
          · simp only [Prod.mk.injEq] at h
            obtain ⟨h1, h2⟩ := h
            subst h1
            subst h2
            exact shapeStep_ok_silent _ _ _ _ (by simp) (by simp [preInit]) rfl
          · simp only [Prod.mk.injEq] at h
            obtain ⟨h1, h2⟩ := h
            subst h1
            subst h2
            exact shapeStep_err_nil _ _ _
    · -- findMoov
      have hpre : preInit st = true := by simp [preInit, *]
      rw [hpre]
      split at h
      · simp only [Prod.mk.injEq] at h
        obtain ⟨h1, h2⟩ := h
        subst h1
        subst h2
        exact shapeStep_err_nil _ _ _
      · simp only [] at h
        split at h
        · simp only [pseq] at h
          split at h
          · next e evsM hM =>
            simp only [Prod.mk.injEq] at h
            obtain ⟨h1, h2⟩ := h
            subst h1
            subst h2
            have hevs := parseMoov_error_evs _ _ _ _ hM
            subst hevs
            exact shapeStep_err_nil _ _ _
          · next stM evsM hM =>
            obtain ⟨-, -, e3, -, -, e6⟩ := parseMoov_fields _ _ _ _ hM
            subst e6
            rcases hr : parse n { stM with
                ftyp := none, ftypLength := none, parseChunk := ParseState.findMoof }
              (chunk.drop (readUInt32BE chunk)) with ⟨r2, evs2⟩
            rw [hr] at h
            simp only [Prod.mk.injEq] at h
            obtain ⟨h1, h2⟩ := h
            subst h1
            subst h2
            have IH : ShapeStep st.published false r2 evs2 := by
              simpa [preInit, e3] using ih _ _ _ _ hr
            cases r2 with
            | ok st' =>
              obtain ⟨hpub, -, hpost⟩ := IH
              obtain ⟨hpre', hsegs⟩ := hpost rfl
              exact shapeStep_ok_init _ _ _ (obsEvents evs2) hpre' hpub
                (by simp [obsEvents_append, obsEvents, isObs]) hsegs
            | error e =>
              obtain ⟨q, hq, hstep⟩ := IH
              exact shapeStep_err_init _ q e _ (obsEvents evs2) hq
                (by simp [obsEvents_append, obsEvents, isObs])
                (by simpa [StepEvs] using hstep)
        · split at h
          · simp only [pseq] at h
            split at h
            · next e evsM hM =>
              simp only [Prod.mk.injEq] at h
              obtain ⟨h1, h2⟩ := h
              subst h1
              subst h2
              have hevs := parseMoov_error_evs _ _ _ _ hM
              subst hevs
              exact shapeStep_err_nil _ _ _
            · next stM evsM hM =>
              obtain ⟨-, -, e3, -, -, e6⟩ := parseMoov_fields _ _ _ _ hM
              subst e6
              simp only [Prod.mk.injEq] at h
              obtain ⟨h1, h2⟩ := h
              subst h1
              subst h2
              exact shapeStep_ok_init _ _ _ [] (by simp [preInit])
                (by simp [e3]) (by simp [obsEvents, isObs]) (by simp [segsIn])
          · simp only [Prod.mk.injEq] at h
            obtain ⟨h1, h2⟩ := h
            subst h1
            subst h2
            exact shapeStep_err_nil _ _ _
    · -- moofHunt
      have hpre : preInit st = false := by simp [preInit, *]
      rw [hpre]
      split at h
      · split at h
        · have IH := ih { st with parseChunk := ParseState.findMoof } _ r evs h
          simpa [preInit] using IH
        · simp only [Prod.mk.injEq] at h
          obtain ⟨h1, h2⟩ := h
          subst h1
          subst h2
          exact shapeStep_ok_silent _ _ _ _ rfl hpre rfl
      · simp only [Prod.mk.injEq] at h
        obtain ⟨h1, h2⟩ := h
        subst h1
        subst h2
        exact shapeStep_ok_silent _ _ _ _ rfl hpre rfl
    · -- findMoof
      have hpre : preInit st = false := by simp [preInit, *]
      rw [hpre]
      split at h
      · split at h
        · simp only [Prod.mk.injEq] at h
          obtain ⟨h1, h2⟩ := h
          subst h1
          subst h2
          exact shapeStep_err_nil _ _ _
        · simp only [pseq] at h
          split at h
          · next e1 aev hA =>
            simp only [Prod.mk.injEq] at h
            obtain ⟨h1, h2⟩ := h
            subst h1
            subst h2
            exact (by simpa [preInit] using ih _ _ _ _ hA :
              ShapeStep st.published false (Except.error e1) aev)
          · next stM aev hA =>
            have IHA : ShapeStep st.published false (Except.ok stM) aev := by
              simpa [preInit] using ih _ _ _ _ hA
            obtain ⟨hpubA, -, hpostA⟩ := IHA
            obtain ⟨hpreM, hsegsA⟩ := hpostA rfl
            split at h
            · simp only [Prod.mk.injEq] at h
              obtain ⟨h1, h2⟩ := h
              subst h1
              subst h2
              exact shapeStep_err_post _ stM.published _ _ hpubA
                (by simpa [obsEvents_append, obsEvents, isObs] using hsegsA)
            · split at h
              · rcases hr : parse n { stM with
                    moofLength := some (readUInt32BE chunk)
                    moof := some (chunk.take (readUInt32BE chunk))
                    parseChunk := ParseState.findMdat }
                  (chunk.drop (readUInt32BE chunk)) with ⟨r2, evs2⟩
                rw [hr] at h
                simp only [Prod.mk.injEq] at h
                obtain ⟨h1, h2⟩ := h
                subst h1
                subst h2
                have IH2 : ShapeStep stM.published false r2 evs2 := by
                  simpa [preInit] using ih _ _ _ _ hr
                cases r2 with
                | ok st' =>
                  obtain ⟨hpub2, -, hpost2⟩ := IH2
                  obtain ⟨hpre2, hsegs2⟩ := hpost2 rfl
                  refine shapeStep_ok_post _ _ _ hpre2 (le_trans hpubA hpub2) ?_
                  rw [obsEvents_append]
                  exact segsIn_append _ _ _ _ _ hpubA hpub2 hsegsA hsegs2
                | error e =>
                  obtain ⟨q, hq2, hstep2⟩ := IH2
                  refine shapeStep_err_post _ q _ _ (le_trans hpubA hq2) ?_
                  rw [obsEvents_append]
                  exact segsIn_append _ _ _ _ _ hpubA hq2 hsegsA
                    (by simpa [StepEvs] using hstep2)
              · split at h
                · simp only [Prod.mk.injEq] at h
                  obtain ⟨h1, h2⟩ := h
                  subst h1
                  subst h2
                  refine shapeStep_ok_post _ _ _ (by simp [preInit]) (by simpa using hpubA) ?_
                  simpa [obsEvents_append, obsEvents, isObs] using hsegsA
                · simp only [Prod.mk.injEq] at h
                  obtain ⟨h1, h2⟩ := h
                  subst h1
                  subst h2
                  exact shapeStep_err_post _ stM.published _ _ hpubA
                    (by simpa [obsEvents_append, obsEvents, isObs] using hsegsA)
      · split at h
        · have IH := ih { st with
              moofLength := some (readUInt32BE chunk)
              moof := some (chunk.take (readUInt32BE chunk))
              parseChunk := ParseState.findMdat } (chunk.drop (readUInt32BE chunk)) r evs h
          simpa [preInit] using IH
        · split at h
          · simp only [Prod.mk.injEq] at h
            obtain ⟨h1, h2⟩ := h
            subst h1
            subst h2
            exact shapeStep_ok_silent _ _ _ _ (by simp) (by simp [preInit]) rfl
          · simp only [Prod.mk.injEq] at h
            obtain ⟨h1, h2⟩ := h
            subst h1
            subst h2
            exact shapeStep_err_nil _ _ _
    · -- findMdat
      have hpre : preInit st = false := by simp [preInit, *]
      rw [hpre]
      split at h
      · next buffer hbuf =>
        simp only [] at h
        split at h
        · -- exact fill: publish
          simp only [Prod.mk.injEq] at h
          obtain ⟨h1, h2⟩ := h
          subst h1
          subst h2
          obtain ⟨ho, hp1, -⟩ := setSegment_shape { st with
              mdatBuffer := some (buffer ++ [chunk])
              mdatBufferSize := some (st.mdatBufferSize.getD 0 + chunk.length) }
            (bufConcat (st.moof.getD [] :: (buffer ++ [chunk]))
              (st.moofLength.getD 0 + st.mdatLength.getD 0))
          refine shapeStep_ok_post _ _ _ (by simp [preInit, clearMdat])
            (by simp [clearMdat, hp1]) ?_
          rw [ho]
          by_cases hl : st.segListeners > 0 <;>
            simp [hl, clearMdat, hp1, segsIn_single, segsIn]
        · split at h
          · -- overshoot: publish then re-feed
            simp only [pseq] at h
            obtain ⟨ho, hp1, -⟩ := setSegment_shape { st with
                mdatBuffer := some (buffer ++ [chunk])
                mdatBufferSize := some (st.mdatBufferSize.getD 0 + chunk.length) }
              (bufConcat (st.moof.getD [] :: (buffer ++ [chunk]))
                (st.moofLength.getD 0 + st.mdatLength.getD 0))
            rcases hr : parse n (clearMdat { (setSegment { st with
                mdatBuffer := some (buffer ++ [chunk])
                mdatBufferSize := some (st.mdatBufferSize.getD 0 + chunk.length) }
              (bufConcat (st.moof.getD [] :: (buffer ++ [chunk]))
                (st.moofLength.getD 0 + st.mdatLength.getD 0))).1 with
                parseChunk := ParseState.findMoof })
              (chunk.drop
                (st.mdatBufferSize.getD 0 + chunk.length - st.mdatLength.getD 0)) with ⟨r2, evs2⟩
            rw [hr] at h
            simp only [Prod.mk.injEq] at h
            obtain ⟨h1, h2⟩ := h
            subst h1
            subst h2
            have IH2 : ShapeStep (st.published + 1) false r2 evs2 := by
              simpa [preInit, clearMdat, hp1] using ih _ _ _ _ hr
            have hfirst : segsIn st.published (st.published + 1)
                (obsEvents (setSegment { st with
                  mdatBuffer := some (buffer ++ [chunk])
                  mdatBufferSize := some (st.mdatBufferSize.getD 0 + chunk.length) }
                (bufConcat (st.moof.getD [] :: (buffer ++ [chunk]))
                  (st.moofLength.getD 0 + st.mdatLength.getD 0))).2) = true := by
              rw [ho]
              by_cases hl : st.segListeners > 0 <;>
                simp [hl, segsIn_single, segsIn]
            cases r2 with
            | ok st' =>
              obtain ⟨hpub2, -, hpost2⟩ := IH2
              obtain ⟨hpre2, hsegs2⟩ := hpost2 rfl
              refine shapeStep_ok_post _ _ _ hpre2
                (le_trans (Nat.le_succ _) hpub2) ?_
              rw [obsEvents_append]
              exact segsIn_append _ _ _ _ _ (Nat.le_succ _) hpub2 hfirst hsegs2
            | error e =>
              obtain ⟨q, hq2, hstep2⟩ := IH2
              refine shapeStep_err_post _ q _ _ (le_trans (Nat.le_succ _) hq2) ?_
              rw [obsEvents_append]
              exact segsIn_append _ _ _ _ _ (Nat.le_succ _) hq2 hfirst
                (by simpa [StepEvs] using hstep2)
          · -- still accumulating
            simp only [Prod.mk.injEq] at h
            obtain ⟨h1, h2⟩ := h
            subst h1
            subst h2
            exact shapeStep_ok_silent _ _ _ _ (by simp) (by simp [preInit, hpre, *]) rfl
      · split at h
        · simp only [Prod.mk.injEq] at h
          obtain ⟨h1, h2⟩ := h
          subst h1
          subst h2
          exact shapeStep_err_nil _ _ _
        · simp only [] at h
          split at h
          · simp only [Prod.mk.injEq] at h
            obtain ⟨h1, h2⟩ := h
            subst h1
            subst h2
            exact shapeStep_ok_silent _ _ _ _ (by simp) (by simp [preInit, hpre, *]) rfl
          · split at h
            · simp only [Prod.mk.injEq] at h
              obtain ⟨h1, h2⟩ := h
              subst h1
              subst h2
              obtain ⟨ho, hp1, -⟩ := setSegment_shape
                { st with mdatLength := some (readUInt32BE chunk) }
                (bufConcat [st.moof.getD [], chunk] (st.moofLength.getD 0 + chunk.length))
              refine shapeStep_ok_post _ _ _ (by simp [preInit, clearMdat])
                (by simp [clearMdat, hp1]) ?_
              rw [ho]
              by_cases hl : st.segListeners > 0 <;>
                simp [hl, clearMdat, hp1, segsIn_single, segsIn]
            · simp only [Prod.mk.injEq] at h
              obtain ⟨h1, h2⟩ := h
              subst h1
              subst h2
              exact shapeStep_err_nil _ _ _

theorem runChunks_shape : ∀ fuel chunks st r evs,
    runChunks fuel st chunks = (r, evs) →
    ShapeStep st.published (preInit st) r evs := by
  intro fuel chunks
  induction chunks with
  | nil =>
    intro st r evs h
    simp only [runChunks, Prod.mk.injEq] at h
    obtain ⟨h1, h2⟩ := h
    subst h1
    subst h2
    exact shapeStep_ok_silent _ _ _ _ rfl rfl rfl
  | cons c cs ih =>
    intro st r evs h
    simp only [runChunks] at h
    split at h
    · next e evs1 heq =>
      simp only [Prod.mk.injEq] at h
      obtain ⟨h1, h2⟩ := h
      subst h1
      subst h2
      exact parse_shape _ _ _ _ _ heq
    · next st1 evs1 heq =>
      rcases hr2 : runChunks fuel st1 cs with ⟨r2, evs2⟩
      rw [hr2] at h
      simp only [Prod.mk.injEq] at h
      obtain ⟨h1, h2⟩ := h
      subst h1
      subst h2
      have S1 := parse_shape _ _ _ _ _ heq
      have S2 := ih st1 r2 evs2 hr2
      obtain ⟨hpub1, hpreT, hpreF⟩ := S1
      by_cases hpre : preInit st = true
      · rw [hpre] at hpreT ⊢
        rcases hpreT rfl with ⟨hpre1, hobs1, hpubeq⟩ | ⟨hpre1, rest1, hobs1, hsegs1⟩
        · -- pre stayed pre, silently
          rw [hpre1] at S2
          rw [← hpubeq]
          cases r2 with
          | ok st' =>
            obtain ⟨hpub2, hpreT2, -⟩ := S2
            refine ⟨hpub2, ?_, ?_⟩
            · intro _
              rcases hpreT2 rfl with ⟨a, b, cpub⟩ | ⟨a, rest2, b, c2⟩
              · exact Or.inl ⟨a, by simp [obsEvents_append, hobs1, b], cpub⟩
              · exact Or.inr ⟨a, rest2, by simp [obsEvents_append, hobs1, b], c2⟩
            · intro hcontra
              simp at hcontra
          | error e =>
            obtain ⟨q, hq, hstep⟩ := S2
            refine ⟨q, hq, ?_⟩
            simp only [StepEvs, if_pos rfl] at hstep ⊢
            rcases hstep with hh | ⟨rest2, hh, hh2⟩
            · exact Or.inl (by simp [obsEvents_append, hobs1, hh])
            · exact Or.inr ⟨rest2, by simp [obsEvents_append, hobs1, hh], hh2⟩
        · -- initialized was emitted by this chunk
          rw [hpre1] at S2
          cases r2 with
          | ok st' =>
            obtain ⟨hpub2, -, hpreF2⟩ := S2
            obtain ⟨hpre2, hsegs2⟩ := hpreF2 rfl
            refine ⟨le_trans hpub1 hpub2, ?_, ?_⟩
            · intro _
              refine Or.inr ⟨hpre2, rest1 ++ obsEvents evs2, ?_, ?_⟩
              · simp [obsEvents_append, hobs1]
              · exact segsIn_append _ _ _ _ _ hpub1 hpub2 hsegs1 hsegs2
            · intro hcontra
              simp at hcontra
          | error e =>
            obtain ⟨q, hq, hstep⟩ := S2
            refine ⟨q, le_trans hpub1 hq, ?_⟩
            simp only [StepEvs, if_pos rfl]
            refine Or.inr ⟨rest1 ++ obsEvents evs2, ?_, ?_⟩
            · simp [obsEvents_append, hobs1]
            · exact segsIn_append _ _ _ _ _ hpub1 hq hsegs1
                (by simpa [StepEvs] using hstep)
      · -- post-init all along
        have hpreB : preInit st = false := by
          cases hb : preInit st
          · rfl
          · exact absurd hb hpre
        rw [hpreB] at hpreF ⊢
        obtain ⟨hpre1, hsegs1⟩ := hpreF rfl
        rw [hpre1] at S2
        cases r2 with
        | ok st' =>
          obtain ⟨hpub2, -, hpreF2⟩ := S2
          obtain ⟨hpre2, hsegs2⟩ := hpreF2 rfl
          refine ⟨le_trans hpub1 hpub2, ?_, ?_⟩
          · intro hcontra
            simp at hcontra
          · intro _
            refine ⟨hpre2, ?_⟩
            rw [obsEvents_append]
            exact segsIn_append _ _ _ _ _ hpub1 hpub2 hsegs1 hsegs2
        | error e =>
          obtain ⟨q, hq, hstep⟩ := S2
          refine ⟨q, le_trans hpub1 hq, ?_⟩
          show segsIn st.published q (obsEvents (evs1 ++ evs2)) = true
          rw [obsEvents_append]
          exact segsIn_append _ _ _ _ _ hpub1 hq hsegs1
            (by simpa [StepEvs] using hstep)

/-- Claim C8 (counterexample): a session consisting of a single write that
carries only the `ftyp` box completes without error yet emits zero
`initialized` events — the claim's "emitted exactly once for every sequence
of writes" fails. -/
theorem c8_initialized_counterexample :
    (runChunks 8 (initState optsPlain) [ftypBox]).2 = [] ∧
    (runChunks 8 (initState optsPlain) [ftypBox]).1.toOption.isSome = true := by
  refine ⟨by decide, by decide⟩

/-- Claim C8 (amended): for every session and every sequence of writes, the
observable trace is well-formed — `initialized` is emitted at most once
(exactly once as soon as any observable event occurs), it precedes every
`segment` event, and the `segment` events carry strictly increasing
publication ordinals with no reordering across chunk boundaries. -/
theorem c8_event_order (o : Options) (chunks : List Bytes) (fuel : Nat) :
    traceOK (runChunks fuel (initState o) chunks).2 = true := by
  rcases hr : runChunks fuel (initState o) chunks with ⟨r, evs⟩
  have S := runChunks_shape fuel chunks (initState o) r evs hr
  have hp : (initState o).published = 0 := rfl
  have hpre : preInit (initState o) = true := rfl
  rw [hp, hpre] at S
  cases r with
  | ok st' =>
    obtain ⟨-, hpreT, -⟩ := S
    rcases hpreT rfl with ⟨-, hobs, -⟩ | ⟨-, rest, hobs, hsegs⟩
    · simp [traceOK, hobs]
    · simp only [traceOK, hobs]
      exact segsIn_to_segsFrom _ _ _ hsegs
  | error e =>
    obtain ⟨q, -, hstep⟩ := S
    simp only [StepEvs, if_pos rfl] at hstep
    rcases hstep with hobs | ⟨rest, hobs, hsegs⟩
    · simp [traceOK, hobs]
    · simp only [traceOK, hobs]
      exact segsIn_to_segsFrom _ _ _ hsegs
